import Mathlib

/-!
Verification development for the sales-forecasting repository's type-inference
and preprocessing core (`scripts/auto_data_analyzer.py`) and the preprocessing
pipeline's configuration-error behaviour (`scripts/preprocessing.py`).

Shallow embedding conventions:
* A table cell is a `Value`: `null` models NaN/None; `num q` models an exact
  numeric cell; `str s` models a string cell that is neither numeric-parseable
  nor date-like; `date d` models a datetime cell (days since 1970-01-01);
  `real e` models an inexact (float-valued) cell produced by the pipeline's
  own derived features, carried symbolically as an expression tree `RExpr`
  because exact real computation is not available.
* A pandas DataFrame is a `Table`: an ordered list of named columns.
* pandas object dtype is modelled as "the column contains a `str` cell";
  uniform numeric / datetime columns have native (non-object) dtypes.
* `pd.to_numeric(v, errors=raise)` succeeds exactly on `num`/`real` cells.
* `pd.to_datetime(v, errors=raise)` succeeds on `date` cells, on nulls
  (NaT), and - crucially - on every numeric cell, which pandas interprets
  as an epoch timestamp in nanoseconds (all numeric cells are modelled as
  within the representable datetime range); it fails exactly on `str`
  cells. A stringified `date` cell is exactly what matches the four date
  regexes of `_is_datetime_column` (a `str` cell is by convention not
  date-formatted, and a stringified number is not either).
-/

/-- Symbolic real-number expressions: values of float-valued derived features
(cyclical sin/cos encodings, standard-scaled columns) are represented exactly
as expression trees. `sin2pi q` stands for sin (2*pi*q), `cos2pi q` for
cos (2*pi*q). -/
inductive RExpr where
  | ofRat (q : ℚ)
  | sin2pi (q : ℚ)
  | cos2pi (q : ℚ)
  | add (a b : RExpr)
  | sub (a b : RExpr)
  | mul (a b : RExpr)
  | div (a b : RExpr)
  | sqrt (a : RExpr)
deriving DecidableEq, Repr

/-- A single table cell. -/
inductive Value where
  | null
  | num (q : ℚ)
  | real (e : RExpr)
  | str (s : String)
  | date (d : ℤ)
deriving DecidableEq, Repr

/-- Is this cell missing (NaN/None)? -/
def Value.isNull : Value → Bool
  | Value.null => true
  | _ => false

/-- Is this cell a plain string cell? (Used to model pandas object dtype.) -/
def Value.isStr : Value → Bool
  | Value.str _ => true
  | _ => false

/-- Does `pd.to_numeric(value, errors=raise)` succeed on this cell?
Numeric cells (exact or float) parse; strings in this model are the
non-numeric strings, and datetime cells do not coerce. -/
def parsesNumeric : Value → Bool
  | Value.num _ => true
  | Value.real _ => true
  | _ => false

/-- Does `pd.to_datetime(value, errors=raise)` succeed on this cell?
Datetime cells parse; nulls parse (to NaT); numeric cells parse too,
because pandas interprets numbers as epoch-nanosecond timestamps (modelled
as always within the representable range); only plain string cells make
the conversion raise. -/
def parsesDate : Value → Bool
  | Value.str _ => false
  | _ => true

/-- Does `str(value)` match one of the four date regexes of
`_is_datetime_column` (`YYYY-MM-DD`, `MM/DD/YYYY`, `MM-DD-YYYY`,
`YYYY/MM/DD`)? A stringified datetime cell does; plain strings in this model
are the ones that do not. -/
def matchesDatePattern : Value → Bool
  | Value.date _ => true
  | _ => false

/-- `series.dropna()`: the non-null cells, in order. -/
def nonNullValues (xs : List Value) : List Value :=
  xs.filter (fun v => !v.isNull)

/-- The five detected-type tags of `_analyze_column`. -/
inductive CType where
  | empty
  | datetime
  | numeric
  | categorical
  | text
deriving DecidableEq, Repr

/-- `AutoDataAnalyzer._is_datetime_column` (auto_data_analyzer.py lines
128-148), on a null-free column: try `pd.to_datetime` on the first
`min(100, n)` values; on failure, fall back to matching the stringified
sample against the four date regexes (any single match suffices). -/
def isDatetimeColumn (xs : List Value) : Bool :=
  let sample := xs.take 100
  sample.all parsesDate || sample.any matchesDatePattern

/-- `AutoDataAnalyzer._is_numeric_column` (lines 150-158), on a null-free
column: try `pd.to_numeric` on the whole column; on failure, coerce
per-value (invalid values become null) and test whether the non-null
coerced fraction strictly exceeds 0.8. -/
def isNumericColumn (xs : List Value) : Bool :=
  xs.all parsesNumeric ||
    decide (5 * (xs.filter parsesNumeric).length > 4 * xs.length)

/-- `AutoDataAnalyzer._is_categorical_column` (lines 160-164), on a null-free
column: distinct/total ratio below 0.5, or the column's dtype is object. -/
def isCategoricalColumn (xs : List Value) : Bool :=
  decide (2 * xs.dedup.length < xs.length) || xs.any Value.isStr

/-- The detected-type decision of `AutoDataAnalyzer._analyze_column`
(lines 66-126): empty, then datetime, then numeric, then categorical,
then text, each test evaluated on the non-null subset. -/
def detectType (xs : List Value) : CType :=
  let nn := nonNullValues xs
  if nn.isEmpty then CType.empty
  else if isDatetimeColumn nn then CType.datetime
  else if isNumericColumn nn then CType.numeric
  else if isCategoricalColumn nn then CType.categorical
  else CType.text

/-- `series.nunique()`: number of distinct non-null cells. -/
def nuniqueCount (xs : List Value) : ℕ :=
  (nonNullValues xs).dedup.length

/-- The encoding recommendations `_analyze_column` can produce. -/
inductive EncRec where
  | one_hot_encoding
  | label_encoding
  | target_encoding
  | noRecommendation
deriving DecidableEq, Repr

/-- The encoding-recommendation assignment of `_analyze_column` (lines
104-110): only categorical columns get one; `unique_count <= 10` one-hot,
`<= 50` label, otherwise target. -/
def encodingRecommendation (xs : List Value) : EncRec :=
  match detectType xs with
  | CType.categorical =>
      if nuniqueCount xs ≤ 10 then EncRec.one_hot_encoding
      else if nuniqueCount xs ≤ 50 then EncRec.label_encoding
      else EncRec.target_encoding
  | _ => EncRec.noRecommendation

/-- A named column of a table. -/
structure Column where
  name : String
  values : List Value
deriving DecidableEq, Repr

/-- An in-memory table (pandas DataFrame): an ordered list of named columns. -/
structure Table where
  cols : List Column
deriving DecidableEq, Repr

/-- `df.columns`. -/
def tableNames (t : Table) : List String :=
  t.cols.map Column.name

/-- `df[name]`: the values of the first column carrying `name`
(empty when absent). -/
def getColValues (t : Table) (name : String) : List Value :=
  match t.cols.find? (fun c => c.name == name) with
  | some c => c.values
  | none => []

/-- `df.drop(columns=[name])`. -/
def dropCol (t : Table) (name : String) : Table :=
  ⟨t.cols.filter (fun c => c.name ≠ name)⟩

/-- `pd.concat([df, extra], axis=1)`: append columns on the right. -/
def appendCols (t : Table) (cs : List Column) : Table :=
  ⟨t.cols ++ cs⟩

/-- `df[name] = vs`: replace the values of the column(s) carrying `name`. -/
def replaceColValues (t : Table) (name : String) (vs : List Value) : Table :=
  ⟨t.cols.map (fun c => if c.name = name then ⟨c.name, vs⟩ else c)⟩

/-! ### Stage 1: `_handle_missing_values` (lines 249-277) -/

/-- The rational content of a cell, when it has one. -/
def valueRat? : Value → Option ℚ
  | Value.num q => some q
  | _ => none

/-- numpy-style median of a list of rationals: sort, take the middle
element when the length is odd, the mean of the two middle elements when
even (0 on an empty list). -/
def medianOfRats (l : List ℚ) : ℚ :=
  let s := List.insertionSort (fun a b => a ≤ b) l
  let n := s.length
  if n = 0 then 0
  else if n % 2 = 1 then s.getD (n / 2) 0
  else (s.getD (n / 2 - 1) 0 + s.getD (n / 2) 0) / 2

/-- `SimpleImputer(strategy=median)` fit on one column: the median of the
column's non-null numeric cells. -/
def columnMedian (xs : List Value) : ℚ :=
  medianOfRats ((nonNullValues xs).filterMap valueRat?)

/-- A total comparison on cells, used to model numpy's ordering of
equally frequent mode candidates: numbers numerically, strings and dates
by their natural orders, cells of different kinds by a fixed kind rank
(symbolic reals are mutually incomparable and never tie-break). -/
def valueLT (a b : Value) : Bool :=
  match a, b with
  | Value.num p, Value.num q => decide (p < q)
  | Value.str s, Value.str t => compare s t = Ordering.lt
  | Value.date d, Value.date e => decide (d < e)
  | _, _ =>
      decide ((match a with
               | Value.null => 0
               | Value.num _ => 1
               | Value.real _ => 2
               | Value.str _ => 3
               | Value.date _ => 4) <
              (match b with
               | Value.null => 0
               | Value.num _ => 1
               | Value.real _ => 2
               | Value.str _ => 3
               | Value.date _ => 4 : ℕ))

/-- Does `cand` beat `best` as the mode of a column with non-null cells
`nn`? Strictly more frequent, or equally frequent and smaller (the
`most_frequent` imputer resolves ties to the smallest value). -/
def pickMostFrequent (nn : List Value) (best cand : Value) : Bool :=
  decide (nn.count best < nn.count cand) ||
    (decide (nn.count best = nn.count cand) && valueLT cand best)

/-- `SimpleImputer(strategy=most_frequent)` fit on one column: the most
frequent non-null cell, ties resolved to the smallest candidate
(`Value.null` when the column has no non-null cell). -/
def mostFrequentValue (xs : List Value) : Value :=
  let nn := nonNullValues xs
  match nn.dedup with
  | [] => Value.null
  | c :: cs =>
      cs.foldl (fun best cand => if pickMostFrequent nn best cand then cand else best) c

/-- `fillna(method=ffill)`: each null replaced by the nearest preceding
non-null cell; leading nulls stay null. -/
def ffillGo : Value → List Value → List Value
  | _, [] => []
  | last, v :: vs =>
      if v.isNull then last :: ffillGo last vs else v :: ffillGo v vs

/-- Forward fill of a whole column (no preceding value at the start). -/
def ffillValues (xs : List Value) : List Value :=
  ffillGo Value.null xs

/-- The per-column action of `_handle_missing_values`: columns with at
least one null are imputed according to their detected type (numeric:
median; categorical: most frequent; others: forward fill); null-free
columns are untouched. -/
def imputeColumnValues (xs : List Value) : List Value :=
  if xs.any Value.isNull then
    match detectType xs with
    | CType.numeric =>
        xs.map (fun v => if v.isNull then Value.num (columnMedian xs) else v)
    | CType.categorical =>
        xs.map (fun v => if v.isNull then mostFrequentValue xs else v)
    | _ => ffillValues xs
  else xs

/-- The log line `_handle_missing_values` emits for a column, when any. -/
def imputeStep? (c : Column) : Option String :=
  if c.values.any Value.isNull then
    match detectType c.values with
    | CType.numeric =>
        some ("Filled missing values in " ++ c.name ++ " with median value")
    | CType.categorical =>
        some ("Filled missing values in " ++ c.name ++ " with most frequent value")
    | _ => some ("Forward filled missing values in " ++ c.name)
  else none

/-- `AutoDataAnalyzer._handle_missing_values`: stage 1 of the pipeline,
applied per column independently, returning the imputed copy and the log.
This is the total (non-raising executions) view; the authoritative
per-column semantics including `SimpleImputer`'s exception is
`imputeColumnExc` below. -/
def handleMissingValues (t : Table) : Table × List String :=
  (⟨t.cols.map (fun c => ⟨c.name, imputeColumnValues c.values⟩)⟩,
   t.cols.filterMap imputeStep?)

/-- The faithful per-column action of `_handle_missing_values`, with the
exception channel: on a null-containing column detected numeric,
`SimpleImputer(strategy=median).fit_transform` first coerces the whole
column to float and raises `ValueError: could not convert string to
float: ...` as soon as any cell is not numeric (the model keeps a fixed
message; sklearn appends the offending cell); the categorical and
forward-fill branches never raise. -/
def imputeColumnExc (xs : List Value) : Except String (List Value) :=
  if xs.any Value.isNull then
    match detectType xs with
    | CType.numeric =>
        if xs.all (fun v => v.isNull || parsesNumeric v) then
          Except.ok (xs.map (fun v => if v.isNull then Value.num (columnMedian xs) else v))
        else Except.error "could not convert string to float"
    | CType.categorical =>
        Except.ok (xs.map (fun v => if v.isNull then mostFrequentValue xs else v))
    | _ => Except.ok (ffillValues xs)
  else Except.ok xs

/-- Left-to-right per-column run of faithful stage 1: the first raising
column aborts the loop, as the uncaught exception does in the source. -/
def imputeColumnsExc : List Column → Except String (List Column)
  | [] => Except.ok []
  | c :: cs =>
      match imputeColumnExc c.values with
      | Except.error e => Except.error e
      | Except.ok ys =>
          match imputeColumnsExc cs with
          | Except.error e => Except.error e
          | Except.ok rest => Except.ok (Column.mk c.name ys :: rest)

/-- Faithful stage 1 over a whole table: the imputed copy and the log on
success, the propagated `ValueError` otherwise. -/
def handleMissingValuesExc (t : Table) : Except String (Table × List String) :=
  match imputeColumnsExc t.cols with
  | Except.error e => Except.error e
  | Except.ok cols => Except.ok (⟨cols⟩, t.cols.filterMap imputeStep?)

/-! ### Stage 2: `_process_datetime_columns` (lines 279-307) -/

/-- Proleptic Gregorian civil date (year, month, day) from days since
1970-01-01 (Howard Hinnant's `civil_from_days`, the algorithm underlying
the pandas datetime field accessors). -/
def civilFromDays (z : ℤ) : ℤ × ℤ × ℤ :=
  let z' := z + 719468
  let era : ℤ := (if 0 ≤ z' then z' else z' - 146096) / 146097
  let doe := z' - era * 146097
  let yoe := (doe - doe / 1460 + doe / 36524 - doe / 146096) / 365
  let y := yoe + era * 400
  let doy := doe - (365 * yoe + yoe / 4 - yoe / 100)
  let mp := (5 * doy + 2) / 153
  let d := doy - (153 * mp + 2) / 5 + 1
  let m := mp + (if mp < 10 then 3 else -9)
  (y + (if m ≤ 2 then 1 else 0), m, d)

/-- `dt.dayofweek` (Monday = 0); 1970-01-01 was a Thursday (= 3). -/
def dayOfWeek (d : ℤ) : ℤ :=
  (d + 3) % 7

/-- Nanoseconds per day: `pd.to_datetime` reads a bare number as an
epoch-nanosecond timestamp. -/
def nanosPerDay : ℚ := 86400000000000

/-- `pd.to_datetime` applied to one cell during stage 2: identity on
datetime cells; numeric cells become the epoch day their nanosecond
timestamp falls in; nulls become NaT (kept null); symbolic reals (which
arise only downstream of stage 2) and strings (on which the real call
would raise, a situation no claim exercises) are kept as they are. -/
def toDatetimeValue : Value → Value
  | Value.num q => Value.date ⌊q / nanosPerDay⌋
  | v => v

/-- One datetime feature column: the accessor applied to the converted
column's datetime cells, NaT (modelled as null) elsewhere. -/
def dtFeatureColumn (c : Column) (suffix : String) (f : ℤ → Value) : Column :=
  ⟨c.name ++ suffix,
   c.values.map (fun v => match toDatetimeValue v with
     | Value.date d => f d
     | _ => Value.null)⟩

/-- The ten feature columns stage 2 appends for one datetime column, in
assignment order: year, month, day, dayofweek, quarter, is_weekend, then
the four cyclical sin/cos encodings. -/
def datetimeFeatureCols (c : Column) : List Column :=
  [ dtFeatureColumn c "_year" (fun d => Value.num ((civilFromDays d).1 : ℚ)),
    dtFeatureColumn c "_month" (fun d => Value.num ((civilFromDays d).2.1 : ℚ)),
    dtFeatureColumn c "_day" (fun d => Value.num ((civilFromDays d).2.2 : ℚ)),
    dtFeatureColumn c "_dayofweek" (fun d => Value.num (dayOfWeek d : ℚ)),
    dtFeatureColumn c "_quarter" (fun d => Value.num ((((civilFromDays d).2.1 - 1) / 3 + 1 : ℤ) : ℚ)),
    dtFeatureColumn c "_is_weekend" (fun d => Value.num (if 5 ≤ dayOfWeek d then 1 else 0)),
    dtFeatureColumn c "_month_sin" (fun d => Value.real (RExpr.sin2pi (((civilFromDays d).2.1 : ℚ) / 12))),
    dtFeatureColumn c "_month_cos" (fun d => Value.real (RExpr.cos2pi (((civilFromDays d).2.1 : ℚ) / 12))),
    dtFeatureColumn c "_dayofweek_sin" (fun d => Value.real (RExpr.sin2pi ((dayOfWeek d : ℚ) / 7))),
    dtFeatureColumn c "_dayofweek_cos" (fun d => Value.real (RExpr.cos2pi ((dayOfWeek d : ℚ) / 7))) ]

/-- `AutoDataAnalyzer._process_datetime_columns`: per detected datetime
column, convert it in place and append the ten derived feature columns;
the original column is retained. -/
def processDatetimeColumns (t : Table) : Table × List String :=
  t.cols.foldl
    (fun acc c =>
      if detectType c.values = CType.datetime then
        (appendCols (replaceColValues acc.1 c.name (c.values.map toDatetimeValue))
           (datetimeFeatureCols c),
         acc.2 ++ ["Extracted datetime features from " ++ c.name ++
                   ": year, month, day, day_of_week, quarter, is_weekend, cyclical encodings"])
      else acc)
    (t, [])

/-! ### Stage 3: `_encode_categorical_variables` (lines 309-347) -/

/-- `str(value)`: the Python stringification used by `astype(str)` and by
the one-hot feature names (deterministic; exact spelling is immaterial). -/
def valueToStr : Value → String
  | Value.null => "nan"
  | Value.num q => toString q
  | Value.real e => reprStr e
  | Value.str s => s
  | Value.date d => "date " ++ toString d

/-- Sort cells by their stringification (models the sorted category order
numpy's `unique` gives the fitted encoders; no claim depends on the order). -/
def sortValues (l : List Value) : List Value :=
  List.insertionSort (fun a b => compare (valueToStr a) (valueToStr b) ≠ Ordering.gt) l

/-- `OneHotEncoder.categories_` after fitting on one column: its distinct
cells (sorted). -/
def oneHotCats (xs : List Value) : List Value :=
  sortValues xs.dedup

/-- One cell of a one-hot indicator column. -/
def indicatorValue (v cat : Value) : Value :=
  Value.num (if v = cat then 1 else 0)

/-- The indicator columns produced by one-hot encoding column `name` with
cells `xs`: one column per observed category, named `name_category`. -/
def oneHotColumns (name : String) (xs : List Value) : List Column :=
  (oneHotCats xs).map (fun cat =>
    ⟨name ++ "_" ++ valueToStr cat, xs.map (fun v => indicatorValue v cat)⟩)

/-- `LabelEncoder.classes_` after fitting on `astype(str)` of a column:
the distinct stringified cells (sorted). -/
def labelClasses (xs : List Value) : List String :=
  List.insertionSort (fun a b => compare a b ≠ Ordering.gt) (xs.map valueToStr).dedup

/-- `LabelEncoder.fit_transform(column.astype(str))`: each cell replaced by
the integer code of its stringification. -/
def labelEncodeValues (xs : List Value) : List Value :=
  xs.map (fun v => Value.num ((labelClasses xs).indexOf (valueToStr v) : ℕ))

/-- A fitted encoder as stored in the orchestrator's registry. -/
inductive EncoderKind where
  | oneHot (cats : List Value)
  | label (classes : List String)
deriving DecidableEq, Repr

/-- The table effect of one iteration of the stage-3 loop for column `c`
(analysed from the stage input; fitted on and applied to the working
table): skip the target column and non-categorical columns; one-hot for
`unique_count <= 10` (drop the original, append the indicators); label
encoding in place otherwise. -/
def encodeStepTable (target : Option String) (t : Table) (c : Column) : Table :=
  if some c.name = target then t
  else if detectType c.values = CType.categorical then
    if nuniqueCount c.values ≤ 10 then
      appendCols (dropCol t c.name) (oneHotColumns c.name (getColValues t c.name))
    else
      replaceColValues t c.name (labelEncodeValues (getColValues t c.name))
  else t

/-- One full iteration of the stage-3 loop: the table effect of
`encodeStepTable` together with the log line and the registry entry. -/
def encodeStepFull (target : Option String)
    (acc : Table × List String × List (String × EncoderKind)) (c : Column) :
    Table × List String × List (String × EncoderKind) :=
  if some c.name = target then acc
  else if detectType c.values = CType.categorical then
    if nuniqueCount c.values ≤ 10 then
      (encodeStepTable target acc.1 c,
       acc.2.1 ++ ["Applied one-hot encoding to " ++ c.name ++ " (" ++
                   toString (nuniqueCount c.values) ++ " categories)"],
       acc.2.2 ++ [(c.name, EncoderKind.oneHot (oneHotCats (getColValues acc.1 c.name)))])
    else
      (encodeStepTable target acc.1 c,
       acc.2.1 ++ ["Applied label encoding to " ++ c.name ++ " (" ++
                   toString (nuniqueCount c.values) ++ " categories)"],
       acc.2.2 ++ [(c.name, EncoderKind.label (labelClasses (getColValues acc.1 c.name)))])
  else acc

/-- `AutoDataAnalyzer._encode_categorical_variables`: fold of the stage-3
loop over the stage-input columns, also accumulating the log and the
encoder registry. -/
def encodeCategoricalVariables (t : Table) (target : Option String) :
    Table × List String × List (String × EncoderKind) :=
  t.cols.foldl (encodeStepFull target) (t, [], [])

/-! ### Stage 4: `_scale_numeric_features` (lines 349-370) -/

/-- The symbolic-expression content of a numeric-parseable cell. -/
def toRExpr? : Value → Option RExpr
  | Value.num q => some (RExpr.ofRat q)
  | Value.real e => some e
  | _ => none

/-- Symbolic sum of a list of expressions. -/
def sumExprs (l : List RExpr) : RExpr :=
  l.foldl RExpr.add (RExpr.ofRat 0)

/-- `StandardScaler` column mean, symbolically. -/
def columnMeanExpr (es : List RExpr) : RExpr :=
  RExpr.div (sumExprs es) (RExpr.ofRat es.length)

/-- `StandardScaler` column (population) variance, symbolically. -/
def columnVarExpr (mean : RExpr) (es : List RExpr) : RExpr :=
  RExpr.div (sumExprs (es.map (fun x => RExpr.mul (RExpr.sub x mean) (RExpr.sub x mean))))
    (RExpr.ofRat es.length)

/-- `StandardScaler.fit_transform` on one column: each numeric cell `x`
becomes `(x - mean) / sqrt variance` (symbolically); non-numeric cells,
which no claim exercises here, pass through. -/
def standardScaleColumn (xs : List Value) : List Value :=
  let es := xs.filterMap toRExpr?
  let mean := columnMeanExpr es
  let vr := columnVarExpr mean es
  xs.map (fun v => match toRExpr? v with
    | some e => Value.real (RExpr.div (RExpr.sub e mean) (RExpr.sqrt vr))
    | none => v)

/-- Does stage 4 scale this column? All detected-numeric columns except the
target. -/
def isScaledColumn (target : Option String) (c : Column) : Bool :=
  !(some c.name = target) && (detectType c.values = CType.numeric)

/-- `AutoDataAnalyzer._scale_numeric_features`: one shared standard scaler
fit jointly over all non-target numeric columns (equivalently, per-column
standardisation), transforming them in place; the scaler-registry entry
records the fitted per-column mean and variance under the single key
`numeric_features`. -/
def scaleNumericFeatures (t : Table) (target : Option String) :
    Table × List String × List (String × List (String × RExpr × RExpr)) :=
  let numericCols := t.cols.filter (isScaledColumn target)
  if numericCols.isEmpty then (t, [], [])
  else
    (⟨t.cols.map (fun c =>
        if isScaledColumn target c then ⟨c.name, standardScaleColumn c.values⟩ else c)⟩,
     ["Applied standard scaling to " ++ toString numericCols.length ++ " numeric columns"],
     [("numeric_features",
       numericCols.map (fun c =>
         let es := c.values.filterMap toRExpr?
         let mean := columnMeanExpr es
         (c.name, mean, columnVarExpr mean es)))])

/-! ### Stage 5: `_prepare_segmentation` (lines 372-383) and the
orchestrator `prepare_for_modeling` (lines 211-247) -/

/-- The segmentation summary record. -/
structure SegmentationInfo where
  column : String
  segments : List Value
  segmentCounts : List (Value × ℕ)
  totalSegments : ℕ
deriving DecidableEq, Repr

/-- `AutoDataAnalyzer._prepare_segmentation`: distinct segment values in
first-appearance order, per-segment row counts (`value_counts`, descending
count order over non-null cells), and the segment count. -/
def prepareSegmentation (t : Table) (segCol : String) : SegmentationInfo :=
  let xs := getColValues t segCol
  let segs := xs.dedup
  let nn := nonNullValues xs
  { column := segCol
    segments := segs
    segmentCounts :=
      List.insertionSort (fun a b => (b.2 ≤ a.2 : Prop))
        (nn.dedup.map (fun v => (v, nn.count v)))
    totalSegments := segs.length }

/-- The record `prepare_for_modeling` returns. -/
structure PrepareResult where
  processedData : Table
  preprocessingSteps : List String
  segmentationInfo : Option SegmentationInfo
  featureColumns : List String
  targetColumn : Option String
  encodersUsed : List (String × EncoderKind)
  scalersUsed : List (String × List (String × RExpr × RExpr))
deriving DecidableEq, Repr

/-- `AutoDataAnalyzer.prepare_for_modeling`: the fixed five-stage pipeline
on a copy of the caller's table. Stage 5 runs only when a segmentation
column is supplied (a non-empty string, mirroring Python truthiness) and
present in the processed table. Registries are modelled per call (the
instance starts empty for the single call every claim is about). -/
def prepareForModeling (df : Table) (targetColumn segmentationColumn : Option String) :
    PrepareResult :=
  let s1 := handleMissingValues df
  let s2 := processDatetimeColumns s1.1
  let s3 := encodeCategoricalVariables s2.1 targetColumn
  let s4 := scaleNumericFeatures s3.1 targetColumn
  let segInfo :=
    match segmentationColumn with
    | none => none
    | some s =>
        if s ≠ "" ∧ s ∈ tableNames s4.1 then some (prepareSegmentation s4.1 s)
        else none
  { processedData := s4.1
    preprocessingSteps := s1.2 ++ s2.2 ++ s3.2.1 ++ s4.2.1
    segmentationInfo := segInfo
    featureColumns := (tableNames s4.1).filter (fun c => targetColumn ≠ some c)
    targetColumn := targetColumn
    encodersUsed := s3.2.2
    scalersUsed := s4.2.2 }

/-- A heap of caller-owned tables: `prepare_for_modeling` run against slot
`i` of the heap. The first statement of the source (line 215) is
`processed_df = df.copy()`, and every helper stage again copies its input
(lines 252, 282, 312, 352) and writes only its copy, so the only heap
effect of a call is the freshly allocated result table. -/
def prepareForModelingAt (heap : List Table) (i : ℕ)
    (targetColumn segmentationColumn : Option String) :
    List Table × PrepareResult :=
  let df := heap.getD i ⟨[]⟩
  let r := prepareForModeling df targetColumn segmentationColumn
  (heap ++ [r.processedData], r)

/-! ### `preprocessing.py`: `DataPreprocessor.scale_features` (lines 67-84)
and `DataPreprocessor.encode_categorical` (lines 86-103) -/

/-- A fitted scaler as stored in `DataPreprocessor.scalers`. -/
inductive ScalerFit where
  | minmax (stats : List (String × ℚ × ℚ))
  | standard (stats : List (String × RExpr × RExpr))
deriving DecidableEq, Repr

/-- The mutable registries of a `DataPreprocessor` instance. -/
structure PreprocessorState where
  scalers : List (String × ScalerFit)
  encoders : List (String × List String)
deriving DecidableEq, Repr

/-- A fresh `DataPreprocessor()`. -/
def PreprocessorState.init : PreprocessorState := ⟨[], []⟩

/-- Does the column have a numeric (int64/float64) dtype? In this model:
every cell is numeric or NaN. (`select_dtypes(include=[np.number])`.) -/
def dtypeNumeric (xs : List Value) : Bool :=
  xs.all (fun v => v.isNull || parsesNumeric v)

/-- Does the column have object dtype? (`select_dtypes(include=[object])`.) -/
def dtypeObject (xs : List Value) : Bool :=
  xs.any Value.isStr

/-- Least rational cell of a column (`np.min`; 0 when none). -/
def colRatMin (xs : List Value) : ℚ :=
  match xs.filterMap valueRat? with
  | [] => 0
  | q :: qs => qs.foldl min q

/-- Greatest rational cell of a column (`np.max`; 0 when none). -/
def colRatMax (xs : List Value) : ℚ :=
  match xs.filterMap valueRat? with
  | [] => 0
  | q :: qs => qs.foldl max q

/-- `MinMaxScaler.fit_transform` on one column: `(x - min) / (max - min)`,
with a zero range handled as scikit-learn does (scale treated as 1). -/
def minmaxScaleColumn (xs : List Value) : List Value :=
  let mn := colRatMin xs
  let mx := colRatMax xs
  let denom := if mx = mn then 1 else mx - mn
  xs.map (fun v => match v with
    | Value.num q => Value.num ((q - mn) / denom)
    | other => other)

/-- `DataPreprocessor.scale_features(df, columns, method)`: copy the table,
then dispatch on `method`; an unsupported method name raises
`ValueError("Method must be 'minmax' or 'standard'")` (a fixed message)
before any transform or registry update. On success the selected columns
(default: the numeric-dtype columns) are scaled in place and the fitted
scaler is stored under the method name. -/
def DataPreprocessor.scaleFeatures (st : PreprocessorState) (df : Table)
    (columns : Option (List String)) (method : String) :
    Except String (PreprocessorState × Table) :=
  let cols := columns.getD ((df.cols.filter (fun c => dtypeNumeric c.values)).map Column.name)
  if method = "minmax" then
    Except.ok
      ({ st with scalers := st.scalers ++
          [(method, ScalerFit.minmax (cols.map (fun n =>
             let xs := getColValues df n
             (n, colRatMin xs, colRatMax xs))))] },
       ⟨df.cols.map (fun c =>
          if c.name ∈ cols then ⟨c.name, minmaxScaleColumn c.values⟩ else c)⟩)
  else if method = "standard" then
    Except.ok
      ({ st with scalers := st.scalers ++
          [(method, ScalerFit.standard (cols.map (fun n =>
             let es := (getColValues df n).filterMap toRExpr?
             let mean := columnMeanExpr es
             (n, mean, columnVarExpr mean es))))] },
       ⟨df.cols.map (fun c =>
          if c.name ∈ cols then ⟨c.name, standardScaleColumn c.values⟩ else c)⟩)
  else Except.error "Method must be 'minmax' or 'standard'"

/-- `pd.get_dummies(col, prefix=name)`: one indicator column per distinct
non-null cell (sorted), named `name_category`; nulls get all-zero rows. -/
def getDummiesColumns (name : String) (xs : List Value) : List Column :=
  (sortValues (nonNullValues xs).dedup).map (fun cat =>
    ⟨name ++ "_" ++ valueToStr cat, xs.map (fun v => indicatorValue v cat)⟩)

/-- `DataPreprocessor.encode_categorical(df, columns, method)`: copy the
table and loop over the selected columns (default: the object-dtype
columns). `method = "label"` label-encodes in place and records the
encoder; `method = "onehot"` replaces the column by its dummy columns;
any other method name matches no branch of the loop body, so the loop
does nothing and the copy is returned unchanged - the source has no
`else: raise` (preprocessing.py lines 93-102). The `Except` codomain
records that the call never raises. -/
def DataPreprocessor.encodeCategorical (st : PreprocessorState) (df : Table)
    (columns : Option (List String)) (method : String) :
    Except String (PreprocessorState × Table) :=
  let cols := columns.getD ((df.cols.filter (fun c => dtypeObject c.values)).map Column.name)
  Except.ok (cols.foldl
    (fun acc col =>
      if method = "label" then
        let xs := getColValues acc.2 col
        ({ acc.1 with encoders := acc.1.encoders ++ [(col, labelClasses xs)] },
         replaceColValues acc.2 col (labelEncodeValues xs))
      else if method = "onehot" then
        let xs := getColValues acc.2 col
        (acc.1, appendCols (dropCol acc.2 col) (getDummiesColumns col xs))
      else acc)
    (st, df))

/-! ## Helper lemmas -/

/-- `detectType` unfolded (the priority chain of `_analyze_column`). -/
lemma detectType_def (xs : List Value) :
    detectType xs =
      (if (nonNullValues xs).isEmpty then CType.empty
       else if isDatetimeColumn (nonNullValues xs) then CType.datetime
       else if isNumericColumn (nonNullValues xs) then CType.numeric
       else if isCategoricalColumn (nonNullValues xs) then CType.categorical
       else CType.text) := rfl

lemma isEmpty_false_of_ne_nil {xs : List Value} (h : xs ≠ []) : xs.isEmpty = false := by
  cases xs with
  | nil => exact absurd rfl h
  | cons a l => rfl

/-- A null-free nonempty column on which all values parse as numeric has a
strict numeric-parse majority. -/
lemma isNumericColumn_ratio {l : List Value} (h : isNumericColumn l = true) (hne : l ≠ []) :
    4 * l.length < 5 * (l.filter parsesNumeric).length := by
  rcases Bool.or_eq_true _ _ |>.mp h with hall | hrat
  · have hfix : l.filter parsesNumeric = l :=
      List.filter_eq_self.mpr (fun a ha => List.all_eq_true.mp hall a ha)
    rw [hfix]
    have : 0 < l.length := List.length_pos.mpr hne
    omega
  · exact of_decide_eq_true hrat

lemma isNumericColumn_of_ratio {l : List Value}
    (h : 4 * l.length < 5 * (l.filter parsesNumeric).length) :
    isNumericColumn l = true := by
  unfold isNumericColumn
  exact Bool.or_eq_true _ _ |>.mpr (Or.inr (decide_eq_true h))

/-! ## Claims about the Column Type Detector (C1, C3, C10) -/

/-- C1 counterexample: the column `[1, 2, 3, 4, "x"]` has exactly 80% of
its (non-null) values parsing as numbers - "at least 80%" in the claim's
sense - yet after the empty and datetime checks the detector does NOT
return numeric (it falls through to categorical), because
`_is_numeric_column` requires the fraction to strictly exceed 0.8. -/
theorem C1_exact_80_percent_not_numeric :
    (nonNullValues [Value.num 1, Value.num 2, Value.num 3, Value.num 4, Value.str "x"] ≠ [] ∧
     isDatetimeColumn
       (nonNullValues [Value.num 1, Value.num 2, Value.num 3, Value.num 4, Value.str "x"]) = false ∧
     4 * (nonNullValues [Value.num 1, Value.num 2, Value.num 3, Value.num 4, Value.str "x"]).length ≤
       5 * ((nonNullValues [Value.num 1, Value.num 2, Value.num 3, Value.num 4, Value.str "x"]).filter
              parsesNumeric).length) ∧
    detectType [Value.num 1, Value.num 2, Value.num 3, Value.num 4, Value.str "x"] ≠
      CType.numeric := by
  decide

/-- C1 amended: for a column evaluated after the empty and datetime checks
(non-empty non-null subset, datetime check false), the detector returns
numeric if and only if STRICTLY more than 80% of the non-null values parse
as numbers; at 80% or below it does not return numeric. -/
theorem C1_numeric_iff_strict_majority (xs : List Value)
    (hne : nonNullValues xs ≠ [])
    (hdt : isDatetimeColumn (nonNullValues xs) = false) :
    detectType xs = CType.numeric ↔
      4 * (nonNullValues xs).length <
        5 * ((nonNullValues xs).filter parsesNumeric).length := by
  rw [detectType_def, if_neg (by simp [isEmpty_false_of_ne_nil hne]), if_neg (by simp [hdt])]
  constructor
  · intro hdet
    cases hb : isNumericColumn (nonNullValues xs) with
    | true => exact isNumericColumn_ratio hb hne
    | false =>
        rw [if_neg (by simp [hb])] at hdet
        cases hc : isCategoricalColumn (nonNullValues xs) with
        | true => rw [if_pos (by simp [hc])] at hdet; exact absurd hdet (by simp)
        | false => rw [if_neg (by simp [hc])] at hdet; exact absurd hdet (by simp)
  · intro hrat
    rw [if_pos (by simp [isNumericColumn_of_ratio hrat])]

/-- Witness for C1's amended theorem at a concrete column with a 5/6
numeric-parse fraction. -/
theorem C1_numeric_iff_strict_majority_witness :
    detectType [Value.num 1, Value.num 2, Value.num 3, Value.num 4, Value.num 5,
      Value.str "x"] = CType.numeric :=
  (C1_numeric_iff_strict_majority _ (by decide) (by decide)).mpr (by decide)

/-- C3: for every column the detector classifies as categorical, the
encoding recommendation is one-hot when `unique_count <= 10`, label when
`10 < unique_count <= 50`, and the target-encoding tag when
`unique_count > 50`. -/
theorem C3_encoding_recommendation_policy (xs : List Value)
    (h : detectType xs = CType.categorical) :
    (nuniqueCount xs ≤ 10 → encodingRecommendation xs = EncRec.one_hot_encoding) ∧
    (10 < nuniqueCount xs → nuniqueCount xs ≤ 50 →
      encodingRecommendation xs = EncRec.label_encoding) ∧
    (50 < nuniqueCount xs → encodingRecommendation xs = EncRec.target_encoding) := by
  unfold encodingRecommendation
  rw [h]
  refine ⟨fun h1 => ?_, fun h1 h2 => ?_, fun h1 => ?_⟩
  · rw [if_pos h1]
  · rw [if_neg (by omega), if_pos h2]
  · rw [if_neg (by omega), if_neg (by omega)]

/-- Witness for C3 at columns with exactly 10, 11 and 51 distinct values. -/
theorem C3_encoding_recommendation_policy_witness :
    encodingRecommendation ((List.range 10).map fun i => Value.str ("v" ++ toString i)) =
      EncRec.one_hot_encoding ∧
    encodingRecommendation ((List.range 11).map fun i => Value.str ("v" ++ toString i)) =
      EncRec.label_encoding ∧
    encodingRecommendation ((List.range 51).map fun i => Value.str ("v" ++ toString i)) =
      EncRec.target_encoding :=
  ⟨(C3_encoding_recommendation_policy _ (by decide)).1 (by decide),
   (C3_encoding_recommendation_policy _ (by decide)).2.1 (by decide) (by decide),
   (C3_encoding_recommendation_policy _ (by decide)).2.2 (by decide)⟩

/-- A string cell is not null. -/
lemma Value.isNull_false_of_isStr {v : Value} (h : v.isStr = true) : v.isNull = false := by
  cases v <;> simp_all [Value.isStr, Value.isNull]

/-- C10: a column of object storage type (modelled: containing a string
cell) with a non-empty non-null subset is never classified as text: the
dtype-is-object disjunct of `_is_categorical_column` catches it whenever
the datetime and numeric checks fail. -/
theorem C10_object_dtype_never_text (xs : List Value)
    (h1 : xs.any Value.isStr = true) (h2 : nonNullValues xs ≠ []) :
    detectType xs ≠ CType.text ∧
    (isDatetimeColumn (nonNullValues xs) = false →
     isNumericColumn (nonNullValues xs) = false →
     detectType xs = CType.categorical) := by
  obtain ⟨v, hv, hsv⟩ := List.any_eq_true.mp h1
  have hvnn : v ∈ nonNullValues xs := by
    refine List.mem_filter.mpr ⟨hv, ?_⟩
    rw [Value.isNull_false_of_isStr hsv]
    rfl
  have hcat : isCategoricalColumn (nonNullValues xs) = true := by
    unfold isCategoricalColumn
    exact Bool.or_eq_true _ _ |>.mpr (Or.inr (List.any_eq_true.mpr ⟨v, hvnn, hsv⟩))
  have hcase : ∀ hdt hnum,
      isDatetimeColumn (nonNullValues xs) = hdt →
      isNumericColumn (nonNullValues xs) = hnum →
      detectType xs ≠ CType.text := by
    intro hdt hnum hdte hnume
    rw [detectType_def, if_neg (by simp [isEmpty_false_of_ne_nil h2])]
    cases hdt
    · rw [if_neg (by simp [hdte])]
      cases hnum
      · rw [if_neg (by simp [hnume]), if_pos (by simp [hcat])]
        simp
      · rw [if_pos (by simp [hnume])]
        simp
    · rw [if_pos (by simp [hdte])]
      simp
  constructor
  · exact hcase _ _ rfl rfl
  · intro hdte hnume
    rw [detectType_def, if_neg (by simp [isEmpty_false_of_ne_nil h2]),
      if_neg (by simp [hdte]), if_neg (by simp [hnume]), if_pos (by simp [hcat])]

/-- Witness for C10 at a concrete mixed object column. -/
theorem C10_object_dtype_never_text_witness :
    detectType [Value.str "a", Value.num 1, Value.null] ≠ CType.text ∧
    detectType [Value.str "a", Value.num 1, Value.null] = CType.categorical := by
  have h := C10_object_dtype_never_text [Value.str "a", Value.num 1, Value.null]
    (by decide) (by decide)
  exact ⟨h.1, h.2 (by decide) (by decide)⟩

/-! ## Claims about stage 1 (C4, C5) -/

deriving instance DecidableEq for Except

/-- A column whose detected type is not `empty` has a non-empty non-null
subset. -/
lemma nonNull_ne_nil_of_detect {xs : List Value} {ty : CType}
    (h : detectType xs = ty) (hty : ty ≠ CType.empty) : nonNullValues xs ≠ [] := by
  intro hnil
  rw [detectType_def, if_pos (by simp [hnil])] at h
  exact hty h.symm

/-- The fold inside `mostFrequentValue` only ever returns one of its
candidates. -/
lemma foldl_best_mem (nn : List Value) :
    ∀ (cs : List Value) (c : Value),
      cs.foldl (fun best cand => if pickMostFrequent nn best cand then cand else best) c ∈
        c :: cs := by
  intro cs
  induction cs with
  | nil => intro c; simp
  | cons x l ih =>
      intro c
      simp only [List.foldl_cons]
      have h := ih (if pickMostFrequent nn c x then x else c)
      by_cases hc : pickMostFrequent nn c x = true <;> simp [hc] at h ⊢ <;> tauto

/-- On a column with at least one non-null cell, the most frequent value is
itself non-null. -/
lemma mostFrequentValue_not_null (xs : List Value) (h : nonNullValues xs ≠ []) :
    (mostFrequentValue xs).isNull = false := by
  have hrw : mostFrequentValue xs =
      (match (nonNullValues xs).dedup with
       | [] => Value.null
       | c :: cs =>
           cs.foldl
             (fun best cand =>
               if pickMostFrequent (nonNullValues xs) best cand then cand else best) c) := rfl
  rw [hrw]
  cases hd : (nonNullValues xs).dedup with
  | nil => exact absurd ((List.dedup_eq_nil _).mp hd) h
  | cons c cs =>
      have hm := foldl_best_mem (nonNullValues xs) cs c
      have hmem : cs.foldl
          (fun best cand =>
            if pickMostFrequent (nonNullValues xs) best cand then cand else best)
          c ∈ (nonNullValues xs).dedup := by rw [hd]; exact hm
      have hx := List.mem_dedup.mp hmem
      have hf := List.mem_filter.mp hx
      simpa using hf.2

/-- A successful faithful per-column imputation returns exactly the total
stage-1 view of that column. -/
lemma imputeColumnExc_ok_eq {xs ys : List Value}
    (h : imputeColumnExc xs = Except.ok ys) : ys = imputeColumnValues xs := by
  unfold imputeColumnExc at h
  unfold imputeColumnValues
  by_cases hany : xs.any Value.isNull = true
  · rw [if_pos hany] at h
    rw [if_pos hany]
    cases hd : detectType xs with
    | numeric =>
        simp only [hd] at h
        by_cases hallc : xs.all (fun v => v.isNull || parsesNumeric v) = true
        · rw [if_pos hallc] at h
          exact (Except.ok.inj h).symm
        · rw [if_neg hallc] at h
          exact absurd h (by simp)
    | categorical =>
        simp only [hd] at h
        exact (Except.ok.inj h).symm
    | empty =>
        simp only [hd] at h
        exact (Except.ok.inj h).symm
    | datetime =>
        simp only [hd] at h
        exact (Except.ok.inj h).symm
    | text =>
        simp only [hd] at h
        exact (Except.ok.inj h).symm
  · rw [if_neg hany] at h
    rw [if_neg hany]
    exact (Except.ok.inj h).symm


/-- Successful faithful stage 1 certifies per-column success and produces
exactly the total view's columns. -/
lemma imputeColumnsExc_ok :
    ∀ {l l2 : List Column}, imputeColumnsExc l = Except.ok l2 →
      l2 = l.map (fun c => Column.mk c.name (imputeColumnValues c.values)) ∧
      ∀ c ∈ l, imputeColumnExc c.values = Except.ok (imputeColumnValues c.values) := by
  intro l
  induction l with
  | nil =>
      intro l2 h
      refine ⟨(Except.ok.inj h).symm, ?_⟩
      intro c hc
      cases hc
  | cons c cs ih =>
      intro l2 h
      simp only [imputeColumnsExc] at h
      cases hce : imputeColumnExc c.values with
      | error e =>
          simp only [hce] at h
          exact absurd h (by simp)
      | ok ys =>
          simp only [hce] at h
          cases hcs : imputeColumnsExc cs with
          | error e =>
              simp only [hcs] at h
              exact absurd h (by simp)
          | ok rest =>
              simp only [hcs] at h
              have hys : ys = imputeColumnValues c.values := imputeColumnExc_ok_eq hce
              obtain ⟨hrest, hall⟩ := ih hcs
              refine ⟨?_, ?_⟩
              · rw [← Except.ok.inj h, hys, hrest, List.map_cons]
              · intro c2 hc2
                rcases List.mem_cons.mp hc2 with hc2 | hc2
                · rw [hc2, hce, hys]
                · exact hall c2 hc2

/-- C5: whenever the faithful stage 1 completes (returns instead of
raising), no column detected numeric or categorical retains any null:
categorical columns are mode-imputed with a non-null value, and a
null-containing numeric column cannot survive the median imputer, so the
surviving numeric columns were null-free already. -/
theorem C5_no_nulls_after_stage1 (t : Table) (c : Column) (hc : c ∈ t.cols)
    (hdet : detectType c.values = CType.numeric ∨ detectType c.values = CType.categorical)
    (out : Table × List String)
    (hok : handleMissingValuesExc t = Except.ok out) :
    Column.mk c.name (imputeColumnValues c.values) ∈ out.1.cols ∧
    (imputeColumnValues c.values).any Value.isNull = false := by
  obtain ⟨cols, hie, hout⟩ : ∃ cols, imputeColumnsExc t.cols = Except.ok cols ∧
      out = (⟨cols⟩, t.cols.filterMap imputeStep?) := by
    unfold handleMissingValuesExc at hok
    cases hie : imputeColumnsExc t.cols with
    | error e =>
        simp only [hie] at hok
        exact absurd hok (by simp)
    | ok cols =>
        simp only [hie] at hok
        exact ⟨cols, rfl, (Except.ok.inj hok).symm⟩
  obtain ⟨hmap, -⟩ := imputeColumnsExc_ok hie
  refine ⟨?_, ?_⟩
  · rw [hout]
    show Column.mk c.name (imputeColumnValues c.values) ∈ cols
    rw [hmap]
    exact List.mem_map_of_mem _ hc
  · by_cases hany : c.values.any Value.isNull = true
    · rcases hdet with hd | hd
      · have himp : imputeColumnValues c.values =
            c.values.map
              (fun v => if v.isNull then Value.num (columnMedian c.values) else v) := by
          simp [imputeColumnValues, hany, hd]
        rw [himp]
        cases hres : (c.values.map
            (fun v => if v.isNull then Value.num (columnMedian c.values) else v)).any
            Value.isNull
        · rfl
        · exfalso
          obtain ⟨w, hw, hwnull⟩ := List.any_eq_true.mp hres
          obtain ⟨v, hv, hveq⟩ := List.mem_map.mp hw
          by_cases hvn : v.isNull = true
          · rw [if_pos hvn] at hveq
            rw [← hveq] at hwnull
            exact absurd hwnull (by simp [Value.isNull])
          · rw [if_neg hvn] at hveq
            rw [← hveq] at hwnull
            exact hvn hwnull
      · have hne : nonNullValues c.values ≠ [] :=
          nonNull_ne_nil_of_detect hd (by simp)
        have himp : imputeColumnValues c.values =
            c.values.map (fun v => if v.isNull then mostFrequentValue c.values else v) := by
          simp [imputeColumnValues, hany, hd]
        rw [himp]
        cases hres : (c.values.map
            (fun v => if v.isNull then mostFrequentValue c.values else v)).any Value.isNull
        · rfl
        · exfalso
          obtain ⟨w, hw, hwnull⟩ := List.any_eq_true.mp hres
          obtain ⟨v, hv, hveq⟩ := List.mem_map.mp hw
          by_cases hvn : v.isNull = true
          · rw [if_pos hvn] at hveq
            rw [← hveq] at hwnull
            rw [mostFrequentValue_not_null c.values hne] at hwnull
            exact absurd hwnull (by simp)
          · rw [if_neg hvn] at hveq
            rw [← hveq] at hwnull
            exact hvn hwnull
    · have hany' : c.values.any Value.isNull = false := by
        cases hb : c.values.any Value.isNull
        · rfl
        · exact absurd hb hany
      unfold imputeColumnValues
      rw [if_neg (by simp [hany'])]
      exact hany'

/-- Witness for C5 at a table faithful stage 1 completes on: a
numeric-detected mixed column without nulls and a categorical column with
a null. -/
theorem C5_no_nulls_after_stage1_witness :
    Column.mk "mix" (imputeColumnValues [Value.num 1, Value.num 2, Value.num 3,
        Value.num 4, Value.num 5, Value.str "x"]) ∈
      (handleMissingValues ⟨[⟨"mix", [Value.num 1, Value.num 2, Value.num 3,
          Value.num 4, Value.num 5, Value.str "x"]⟩,
        ⟨"city", [Value.str "a", Value.str "a", Value.null]⟩]⟩).1.cols ∧
    (imputeColumnValues [Value.num 1, Value.num 2, Value.num 3,
        Value.num 4, Value.num 5, Value.str "x"]).any Value.isNull = false :=
  C5_no_nulls_after_stage1
    ⟨[⟨"mix", [Value.num 1, Value.num 2, Value.num 3, Value.num 4, Value.num 5,
        Value.str "x"]⟩,
      ⟨"city", [Value.str "a", Value.str "a", Value.null]⟩]⟩
    ⟨"mix", [Value.num 1, Value.num 2, Value.num 3, Value.num 4, Value.num 5,
      Value.str "x"]⟩
    (by decide) (Or.inl (by decide))
    ((handleMissingValues ⟨[⟨"mix", [Value.num 1, Value.num 2, Value.num 3,
        Value.num 4, Value.num 5, Value.str "x"]⟩,
      ⟨"city", [Value.str "a", Value.str "a", Value.null]⟩]⟩).1,
     (handleMissingValues ⟨[⟨"mix", [Value.num 1, Value.num 2, Value.num 3,
        Value.num 4, Value.num 5, Value.str "x"]⟩,
      ⟨"city", [Value.str "a", Value.str "a", Value.null]⟩]⟩).2)
    (by decide)

/-! ## Claim about one-hot row sums (C6) -/

/-- The rational content of a cell, with 0 for non-numeric cells. -/
def ratOr0 (v : Value) : ℚ :=
  (valueRat? v).getD 0

/-- Row-wise sum over a list of columns at row `i`. -/
def rowSumAt (cs : List Column) (i : ℕ) : ℚ :=
  (cs.map (fun c => ratOr0 (c.values.getD i Value.null))).sum

/-- Summing the indicator of `v` over a list of candidate categories counts
the occurrences of `v`. -/
lemma sum_indicator_eq_count (v : Value) :
    ∀ l : List Value,
      (l.map (fun cat => if v = cat then (1 : ℚ) else 0)).sum = l.count v := by
  intro l
  induction l with
  | nil => simp
  | cons a l ih =>
      rw [List.map_cons, List.sum_cons, ih, List.count_cons]
      by_cases hv : v = a
      · subst hv
        rw [if_pos rfl]
        simp only [beq_self_eq_true, if_pos]
        push_cast
        ring
      · rw [if_neg hv,
          if_neg (by simp only [beq_iff_eq]; exact fun h => hv h.symm)]
        push_cast
        ring

/-- `sortValues` is a permutation, so preserves counts and nodup. -/
lemma sortValues_perm (l : List Value) : (sortValues l).Perm l :=
  List.perm_insertionSort _ l

/-- C6: for every one-hot encoded column produced by the orchestrator, the
row-wise sum of the indicator columns is exactly 1 at every row whose
original cell is non-null (it is the count of that cell among the distinct
observed categories). -/
theorem C6_one_hot_row_sum (name : String) (xs : List Value) (i : ℕ)
    (hi : i < xs.length) (hnn : (xs.get ⟨i, hi⟩).isNull = false) :
    rowSumAt (oneHotColumns name xs) i = 1 := by
  have hget : ∀ (f : Value → Value),
      ((xs.map f).getD i Value.null) = f (xs.get ⟨i, hi⟩) := by
    intro f
    rw [List.getD_eq_getD_get?, List.get?_map, List.get?_eq_get hi]
    rfl
  have hstep : rowSumAt (oneHotColumns name xs) i =
      ((oneHotCats xs).map
        (fun cat => if xs.get ⟨i, hi⟩ = cat then (1 : ℚ) else 0)).sum := by
    unfold rowSumAt oneHotColumns
    rw [List.map_map]
    refine congrArg List.sum (List.map_congr_left ?_)
    intro cat hcat
    show ratOr0 ((xs.map (fun v => indicatorValue v cat)).getD i Value.null) = _
    rw [hget (fun v => indicatorValue v cat)]
    unfold indicatorValue ratOr0 valueRat?
    by_cases hv : xs.get ⟨i, hi⟩ = cat <;> simp [hv]
  rw [hstep, sum_indicator_eq_count]
  have hmem : xs.get ⟨i, hi⟩ ∈ xs.dedup := List.mem_dedup.mpr (xs.get_mem i hi)
  have hnd : (oneHotCats xs).Nodup :=
    (List.Perm.nodup_iff (sortValues_perm xs.dedup)).mpr (List.nodup_dedup xs)
  have hmem2 : xs.get ⟨i, hi⟩ ∈ oneHotCats xs :=
    (List.Perm.mem_iff (sortValues_perm xs.dedup)).mpr hmem
  rw [List.count_eq_one_of_mem hnd hmem2]
  norm_num

/-- Witness for C6 at the spec's scenario column
`city = [NYC, LA, NYC, NYC, LA]`, row 0. -/
theorem C6_one_hot_row_sum_witness :
    rowSumAt (oneHotColumns "city"
      [Value.str "NYC", Value.str "LA", Value.str "NYC", Value.str "NYC", Value.str "LA"]) 0 = 1 :=
  C6_one_hot_row_sum "city" _ 0 (by decide) (by decide)

/-! ## Frame and error-handling claims (C7, C8, C9) -/

/-- C7: `prepare_for_modeling` never mutates the caller's table. Modelled
over a heap of caller-owned tables: running the pipeline against slot `i`
leaves slot `i` exactly as it was (the call operates on a copy, source
line 215, and each stage again copies, lines 252, 282, 312, 352), and the
returned result is the pure pipeline function of the caller's table. -/
theorem C7_caller_table_unchanged (heap : List Table) (i : ℕ)
    (targetColumn segmentationColumn : Option String) (hi : i < heap.length) :
    ((prepareForModelingAt heap i targetColumn segmentationColumn).1).getD i ⟨[]⟩ =
      heap.getD i ⟨[]⟩ ∧
    (prepareForModelingAt heap i targetColumn segmentationColumn).2 =
      prepareForModeling (heap.getD i ⟨[]⟩) targetColumn segmentationColumn := by
  constructor
  · show (heap ++ [_]).getD i ⟨[]⟩ = heap.getD i ⟨[]⟩
    rw [List.getD_eq_getD_get?, List.getD_eq_getD_get?, List.get?_append hi]
  · rfl

/-- Witness for C7 at a one-table heap. -/
theorem C7_caller_table_unchanged_witness :
    ((prepareForModelingAt [⟨[⟨"x", [Value.num 1]⟩]⟩] 0 none none).1).getD 0 ⟨[]⟩ =
      [Table.mk [⟨"x", [Value.num 1]⟩]].getD 0 ⟨[]⟩ ∧
    (prepareForModelingAt [⟨[⟨"x", [Value.num 1]⟩]⟩] 0 none none).2 =
      prepareForModeling ([Table.mk [⟨"x", [Value.num 1]⟩]].getD 0 ⟨[]⟩) none none :=
  C7_caller_table_unchanged [⟨[⟨"x", [Value.num 1]⟩]⟩] 0 none none (by decide)

/-- C8 counterexample: calling the preprocessing pipeline's
categorical-encoding operation with an unsupported method name does NOT
raise - the loop body has no else branch (preprocessing.py lines 93-102),
so the call returns normally with the table unchanged, contradicting the
claim that it raises an exception carrying the invalid value. -/
theorem C8_encode_unsupported_method_no_raise :
    DataPreprocessor.encodeCategorical PreprocessorState.init
        ⟨[⟨"city", [Value.str "NYC"]⟩]⟩ (some ["city"]) "bogus" =
      Except.ok (PreprocessorState.init, ⟨[⟨"city", [Value.str "NYC"]⟩]⟩) := by
  rfl

/-- C8 amended: `scale_features` with an unsupported method raises
immediately, before any table modification or registry update, but with
the fixed message `Method must be 'minmax' or 'standard'` (the invalid
value is not included); `encode_categorical` with an unsupported method
does not raise at all: it returns the copied table unchanged with no
registry update. -/
theorem C8_unsupported_method_behaviour (st : PreprocessorState) (df : Table)
    (cols1 cols2 : Option (List String)) (method : String)
    (h1 : method ≠ "minmax") (h2 : method ≠ "standard")
    (h3 : method ≠ "label") (h4 : method ≠ "onehot") :
    DataPreprocessor.scaleFeatures st df cols1 method =
      Except.error "Method must be 'minmax' or 'standard'" ∧
    DataPreprocessor.encodeCategorical st df cols2 method = Except.ok (st, df) := by
  constructor
  · unfold DataPreprocessor.scaleFeatures
    rw [if_neg h1, if_neg h2]
  · unfold DataPreprocessor.encodeCategorical
    have hfold : ∀ (l : List String) (acc : PreprocessorState × Table),
        l.foldl
          (fun acc col =>
            if method = "label" then
              let xs := getColValues acc.2 col
              ({ acc.1 with encoders := acc.1.encoders ++ [(col, labelClasses xs)] },
               replaceColValues acc.2 col (labelEncodeValues xs))
            else if method = "onehot" then
              let xs := getColValues acc.2 col
              (acc.1, appendCols (dropCol acc.2 col) (getDummiesColumns col xs))
            else acc) acc = acc := by
      intro l
      induction l with
      | nil => intro acc; rfl
      | cons x l ih =>
          intro acc
          rw [List.foldl_cons, if_neg h3, if_neg h4]
          exact ih acc
    exact congrArg Except.ok (hfold _ (st, df))

/-- Witness for C8's amended theorem at a concrete unsupported method. -/
theorem C8_unsupported_method_behaviour_witness :
    DataPreprocessor.scaleFeatures PreprocessorState.init ⟨[⟨"x", [Value.num 1]⟩]⟩
        none "target" =
      Except.error "Method must be 'minmax' or 'standard'" ∧
    DataPreprocessor.encodeCategorical PreprocessorState.init ⟨[⟨"x", [Value.num 1]⟩]⟩
        none "target" =
      Except.ok (PreprocessorState.init, ⟨[⟨"x", [Value.num 1]⟩]⟩) :=
  C8_unsupported_method_behaviour PreprocessorState.init ⟨[⟨"x", [Value.num 1]⟩]⟩
    none none "target" (by decide) (by decide) (by decide) (by decide)

/-- C9: when the requested segmentation column is not present in the
processed table, `prepare_for_modeling` completes without raising, returns
no segmentation info, and every other part of the result is exactly what
the call without a segmentation request produces. -/
theorem C9_absent_segmentation_column (df : Table) (target : Option String) (s : String)
    (h : s ∉ tableNames (prepareForModeling df target (some s)).processedData) :
    (prepareForModeling df target (some s)).segmentationInfo = none ∧
    prepareForModeling df target (some s) = prepareForModeling df target none := by
  have hcond : ¬(s ≠ "" ∧ s ∈ tableNames
      (scaleNumericFeatures
        (encodeCategoricalVariables
          (processDatetimeColumns (handleMissingValues df).1).1 target).1 target).1) := by
    rintro ⟨-, hmem⟩
    exact h hmem
  constructor
  · show (if s ≠ "" ∧ s ∈ tableNames _ then _ else none) = none
    rw [if_neg hcond]
  · show PrepareResult.mk _ _ (if s ≠ "" ∧ s ∈ tableNames _ then _ else none) _ _ _ _ = _
    rw [if_neg hcond]
    rfl

/-- Witness for C9 at a table whose processed columns are the one-hot
indicators of `city` (so the name `nosuch` is absent). -/
theorem C9_absent_segmentation_column_witness :
    (prepareForModeling ⟨[⟨"city", [Value.str "NYC", Value.str "LA"]⟩]⟩ none
        (some "nosuch")).segmentationInfo = none ∧
    prepareForModeling ⟨[⟨"city", [Value.str "NYC", Value.str "LA"]⟩]⟩ none
        (some "nosuch") =
      prepareForModeling ⟨[⟨"city", [Value.str "NYC", Value.str "LA"]⟩]⟩ none none :=
  C9_absent_segmentation_column ⟨[⟨"city", [Value.str "NYC", Value.str "LA"]⟩]⟩ none
    "nosuch" (by decide)

/-! ## Claim about the categorical-encoding stage (C2) -/

/-- What stage 3 leaves of the stage-input columns, in place: the target
column and non-categorical columns unchanged, one-hot-encoded columns
(`unique_count <= 10`) removed, label-encoded columns (`unique_count > 10`)
replaced in place by their integer codes. -/
def encodedOriginalPart (cols : List Column) (target : Option String) : List Column :=
  cols.filterMap (fun c =>
    if some c.name = target then some c
    else if detectType c.values = CType.categorical then
      if nuniqueCount c.values ≤ 10 then none
      else some ⟨c.name, labelEncodeValues c.values⟩
    else some c)

/-- The indicator blocks stage 3 appends on the right: for each non-target
categorical column with `unique_count <= 10`, one binary indicator column
per observed category, in stage-input column order. -/
def encodeAppendedPart (cols : List Column) (target : Option String) : List Column :=
  cols.foldr
    (fun c rest =>
      if some c.name ≠ target ∧ detectType c.values = CType.categorical ∧
          nuniqueCount c.values ≤ 10 then
        oneHotColumns c.name c.values ++ rest
      else rest) []

/-- The table component of a full stage-3 iteration is `encodeStepTable`. -/
lemma encodeStepFull_fst (target : Option String)
    (acc : Table × List String × List (String × EncoderKind)) (c : Column) :
    (encodeStepFull target acc c).1 = encodeStepTable target acc.1 c := by
  unfold encodeStepFull encodeStepTable
  split_ifs <;> rfl

/-- The table component of the stage-3 fold is the fold of the table
steps. -/
lemma foldl_encodeStepFull_fst (target : Option String) (cols : List Column) :
    ∀ acc, (cols.foldl (encodeStepFull target) acc).1 =
      cols.foldl (encodeStepTable target) acc.1 := by
  induction cols with
  | nil => intro acc; rfl
  | cons c cols ih =>
      intro acc
      rw [List.foldl_cons, List.foldl_cons, ih, encodeStepFull_fst]

/-- `find?` by name skips a prefix of columns with different names. -/
lemma find?_name_append_left {L R : List Column} {n : String}
    (hL : ∀ x ∈ L, x.name ≠ n) :
    (L ++ R).find? (fun c => c.name == n) = R.find? (fun c => c.name == n) := by
  induction L with
  | nil => rfl
  | cons x L ih =>
      rw [List.cons_append, List.find?_cons_of_neg, ih (fun y hy => hL y (List.mem_cons_of_mem x hy))]
      simp [hL x (List.mem_cons_self x L)]

/-- Looking up `c.name` in `L ++ c :: R` yields `c.values` when no column
of `L` carries that name. -/
lemma getCol_middle (L : List Column) (c : Column) (R : List Column)
    (hL : ∀ x ∈ L, x.name ≠ c.name) :
    getColValues ⟨L ++ c :: R⟩ c.name = c.values := by
  show (match (L ++ c :: R).find? (fun x => x.name == c.name) with
        | some col => col.values
        | none => []) = c.values
  rw [find?_name_append_left hL, List.find?_cons_of_pos _ (by simp)]

/-- Filtering away one name keeps a list of columns with other names. -/
lemma filter_name_ne_of_all {l : List Column} {n : String}
    (h : ∀ x ∈ l, x.name ≠ n) :
    l.filter (fun x => x.name ≠ n) = l :=
  List.filter_eq_self.mpr (fun a ha => by simp [h a ha])

/-- Renaming-style in-place replacement leaves columns with other names
untouched. -/
lemma map_replace_of_ne {l : List Column} {n : String} {vs : List Value}
    (h : ∀ x ∈ l, x.name ≠ n) :
    l.map (fun x => if x.name = n then Column.mk x.name vs else x) = l := by
  have hcongr := List.map_congr_left
    (l := l) (f := fun x => if x.name = n then Column.mk x.name vs else x) (g := id)
    (fun a ha => by simp [h a ha])
  rw [hcongr, List.map_id]

/-- Invariant of the stage-3 fold: starting from a table of the shape
`already-processed survivors L ++ still-to-process rest ++ appended A`, the
fold over `rest` produces `L ++ encodedOriginalPart rest ++ (A ++
encodeAppendedPart rest)`, provided the names of `rest` are distinct, the
names of `L` and `A` avoid those of `rest`, and the indicator names
generated from `rest` avoid the names of `rest`. -/
lemma encodeFold_table_char (target : Option String) :
    ∀ (rest : List Column), ∀ (L A : List Column),
      (rest.map Column.name).Nodup →
      (∀ x ∈ L, x.name ∉ rest.map Column.name) →
      (∀ x ∈ A, x.name ∉ rest.map Column.name) →
      (∀ c ∈ rest, some c.name ≠ target → detectType c.values = CType.categorical →
        nuniqueCount c.values ≤ 10 → ∀ cat ∈ oneHotCats c.values, ∀ c2 ∈ rest,
          c.name ++ "_" ++ valueToStr cat ≠ c2.name) →
      rest.foldl (encodeStepTable target) ⟨L ++ rest ++ A⟩ =
        ⟨L ++ encodedOriginalPart rest target ++ (A ++ encodeAppendedPart rest target)⟩ := by
  intro rest
  induction rest with
  | nil =>
      intro L A _ _ _ _
      simp [encodedOriginalPart, encodeAppendedPart]
  | cons c rest ih =>
      intro L A hnd hL hA hg
      have hcn : c.name ∉ rest.map Column.name := (List.nodup_cons.mp hnd).1
      have hnd' : (rest.map Column.name).Nodup := (List.nodup_cons.mp hnd).2
      have hLname : ∀ x ∈ L, x.name ≠ c.name := by
        intro x hx
        have hh := hL x hx
        simp only [List.map_cons, List.mem_cons] at hh
        exact fun he => hh (Or.inl he)
      have hLrest : ∀ x ∈ L, x.name ∉ rest.map Column.name := by
        intro x hx
        have hh := hL x hx
        simp only [List.map_cons, List.mem_cons] at hh
        exact fun he => hh (Or.inr he)
      have hAname : ∀ x ∈ A, x.name ≠ c.name := by
        intro x hx
        have hh := hA x hx
        simp only [List.map_cons, List.mem_cons] at hh
        exact fun he => hh (Or.inl he)
      have hArest : ∀ x ∈ A, x.name ∉ rest.map Column.name := by
        intro x hx
        have hh := hA x hx
        simp only [List.map_cons, List.mem_cons] at hh
        exact fun he => hh (Or.inr he)
      have hrestname : ∀ x ∈ rest, x.name ≠ c.name := by
        intro x hx he
        exact hcn (he ▸ List.mem_map_of_mem Column.name hx)
      have hg' : ∀ c1 ∈ rest, some c1.name ≠ target →
          detectType c1.values = CType.categorical → nuniqueCount c1.values ≤ 10 →
          ∀ cat ∈ oneHotCats c1.values, ∀ c2 ∈ rest,
            c1.name ++ "_" ++ valueToStr cat ≠ c2.name :=
        fun c1 h1 h2 h3 h4 cat hcat c2 h5 =>
          hg c1 (List.mem_cons_of_mem c h1) h2 h3 h4 cat hcat c2 (List.mem_cons_of_mem c h5)
      rw [List.foldl_cons]
      by_cases ht : some c.name = target
      · -- target column: skipped
        have hstep : encodeStepTable target ⟨L ++ (c :: rest) ++ A⟩ c =
            ⟨L ++ (c :: rest) ++ A⟩ := by
          unfold encodeStepTable
          rw [if_pos ht]
        rw [hstep]
        have hre : (⟨L ++ (c :: rest) ++ A⟩ : Table) = ⟨(L ++ [c]) ++ rest ++ A⟩ := by
          simp
        rw [hre, ih (L ++ [c]) A hnd' ?hL1 hArest hg']
        case hL1 =>
          intro x hx
          rcases List.mem_append.mp hx with hx1 | hx1
          · exact hLrest x hx1
          · have hxc : x = c := by simpa using hx1
            rw [hxc]
            exact hcn
        have T1 : encodedOriginalPart (c :: rest) target = c :: encodedOriginalPart rest target := by
          simp [encodedOriginalPart, List.filterMap_cons, ht]
        have T2 : encodeAppendedPart (c :: rest) target = encodeAppendedPart rest target := by
          show (if some c.name ≠ target ∧ detectType c.values = CType.categorical ∧
              nuniqueCount c.values ≤ 10 then
                oneHotColumns c.name c.values ++ encodeAppendedPart rest target
              else encodeAppendedPart rest target) = encodeAppendedPart rest target
          rw [if_neg (fun hand => hand.1 ht)]
        rw [T1, T2]
        congr 1
        simp
      · by_cases hcat : detectType c.values = CType.categorical
        · by_cases hu : nuniqueCount c.values ≤ 10
          · -- one-hot: drop the original, append the indicator block
            have hassoc : (⟨L ++ (c :: rest) ++ A⟩ : Table) = ⟨L ++ c :: (rest ++ A)⟩ := by
              simp
            have hget : getColValues ⟨L ++ c :: (rest ++ A)⟩ c.name = c.values :=
              getCol_middle L c (rest ++ A) hLname
            have hdrop : dropCol ⟨L ++ c :: (rest ++ A)⟩ c.name = ⟨L ++ (rest ++ A)⟩ := by
              unfold dropCol
              congr 1
              rw [List.filter_append, filter_name_ne_of_all hLname,
                List.filter_cons_of_neg (by simp), filter_name_ne_of_all ?hra]
              case hra =>
                intro x hx
                rcases List.mem_append.mp hx with hx1 | hx1
                · exact hrestname x hx1
                · exact hAname x hx1
            have hstep : encodeStepTable target ⟨L ++ c :: (rest ++ A)⟩ c =
                ⟨L ++ rest ++ (A ++ oneHotColumns c.name c.values)⟩ := by
              unfold encodeStepTable
              rw [if_neg ht, if_pos hcat, if_pos hu, hget, hdrop]
              unfold appendCols
              congr 1
              simp
            rw [hassoc, hstep, ih L (A ++ oneHotColumns c.name c.values) hnd' hLrest ?hA2 hg']
            case hA2 =>
              intro x hx
              rcases List.mem_append.mp hx with hx1 | hx1
              · exact hArest x hx1
              · obtain ⟨cat, hcatmem, hx2⟩ := List.mem_map.mp hx1
                have hxn : x.name = c.name ++ "_" ++ valueToStr cat := by
                  rw [← hx2]
                intro hmem
                obtain ⟨c2, hc2, hc2n⟩ := List.mem_map.mp hmem
                exact hg c (List.mem_cons_self c rest) ht hcat hu cat hcatmem c2
                  (List.mem_cons_of_mem c hc2) ((hc2n.trans hxn).symm)
            have T1 : encodedOriginalPart (c :: rest) target =
                encodedOriginalPart rest target := by
              simp [encodedOriginalPart, List.filterMap_cons, ht, hcat, hu]
            have T2 : encodeAppendedPart (c :: rest) target =
                oneHotColumns c.name c.values ++ encodeAppendedPart rest target := by
              show (if some c.name ≠ target ∧ detectType c.values = CType.categorical ∧
                  nuniqueCount c.values ≤ 10 then
                    oneHotColumns c.name c.values ++ encodeAppendedPart rest target
                  else encodeAppendedPart rest target) =
                oneHotColumns c.name c.values ++ encodeAppendedPart rest target
              rw [if_pos ⟨ht, hcat, hu⟩]
            rw [T1, T2]
            congr 1
            simp
          · -- label encoding in place
            have hassoc : (⟨L ++ (c :: rest) ++ A⟩ : Table) = ⟨L ++ c :: (rest ++ A)⟩ := by
              simp
            have hget : getColValues ⟨L ++ c :: (rest ++ A)⟩ c.name = c.values :=
              getCol_middle L c (rest ++ A) hLname
            have hstep : encodeStepTable target ⟨L ++ c :: (rest ++ A)⟩ c =
                ⟨(L ++ [Column.mk c.name (labelEncodeValues c.values)]) ++ rest ++ A⟩ := by
              unfold encodeStepTable
              rw [if_neg ht, if_pos hcat, if_neg hu, hget]
              unfold replaceColValues
              congr 1
              rw [List.map_append, List.map_cons, map_replace_of_ne hLname,
                map_replace_of_ne ?hra, if_pos rfl]
              · simp
              case hra =>
                intro x hx
                rcases List.mem_append.mp hx with hx1 | hx1
                · exact hrestname x hx1
                · exact hAname x hx1
            rw [hassoc, hstep,
              ih (L ++ [Column.mk c.name (labelEncodeValues c.values)]) A hnd' ?hL2 hArest hg']
            case hL2 =>
              intro x hx
              rcases List.mem_append.mp hx with hx1 | hx1
              · exact hLrest x hx1
              · have hxc : x = Column.mk c.name (labelEncodeValues c.values) := by simpa using hx1
                rw [hxc]
                exact hcn
            have T1 : encodedOriginalPart (c :: rest) target =
                Column.mk c.name (labelEncodeValues c.values) :: encodedOriginalPart rest target := by
              simp [encodedOriginalPart, List.filterMap_cons, ht, hcat, hu]
            have T2 : encodeAppendedPart (c :: rest) target = encodeAppendedPart rest target := by
              show (if some c.name ≠ target ∧ detectType c.values = CType.categorical ∧
                  nuniqueCount c.values ≤ 10 then
                    oneHotColumns c.name c.values ++ encodeAppendedPart rest target
                  else encodeAppendedPart rest target) = encodeAppendedPart rest target
              rw [if_neg (fun hand => hu hand.2.2)]
            rw [T1, T2]
            congr 1
            simp
        · -- non-categorical: skipped
          have hstep : encodeStepTable target ⟨L ++ (c :: rest) ++ A⟩ c =
              ⟨L ++ (c :: rest) ++ A⟩ := by
            unfold encodeStepTable
            rw [if_neg ht, if_neg hcat]
          rw [hstep]
          have hre : (⟨L ++ (c :: rest) ++ A⟩ : Table) = ⟨(L ++ [c]) ++ rest ++ A⟩ := by
            simp
          rw [hre, ih (L ++ [c]) A hnd' ?hL3 hArest hg']
          case hL3 =>
            intro x hx
            rcases List.mem_append.mp hx with hx1 | hx1
            · exact hLrest x hx1
            · have hxc : x = c := by simpa using hx1
              rw [hxc]
              exact hcn
          have T1 : encodedOriginalPart (c :: rest) target = c :: encodedOriginalPart rest target := by
            simp [encodedOriginalPart, List.filterMap_cons, ht, hcat]
          have T2 : encodeAppendedPart (c :: rest) target = encodeAppendedPart rest target := by
            show (if some c.name ≠ target ∧ detectType c.values = CType.categorical ∧
                nuniqueCount c.values ≤ 10 then
                  oneHotColumns c.name c.values ++ encodeAppendedPart rest target
                else encodeAppendedPart rest target) = encodeAppendedPart rest target
            rw [if_neg (fun hand => hcat hand.2.1)]
          rw [T1, T2]
          congr 1
          simp

/-- C2: the categorical-encoding stage transforms the table exactly as
follows, for every stage-input column (with distinct column names, and
generated indicator names not colliding with input names): the target
column and non-categorical columns are kept unchanged in place; every
non-target categorical column with `unique_count <= 10` is dropped from
its position and one binary indicator column named `column_category` per
observed category is appended on the right; every non-target categorical
column with `unique_count > 10` (including `> 50`) is replaced in place by
its integer label codes. No other transformation (in particular no target
encoding) occurs. -/
theorem C2_categorical_encoding_characterization (df : Table) (target : Option String)
    (h1 : (df.cols.map Column.name).Nodup)
    (h2 : ∀ c ∈ df.cols, some c.name ≠ target → detectType c.values = CType.categorical →
      nuniqueCount c.values ≤ 10 → ∀ cat ∈ oneHotCats c.values, ∀ c2 ∈ df.cols,
        c.name ++ "_" ++ valueToStr cat ≠ c2.name) :
    (encodeCategoricalVariables df target).1 =
      ⟨encodedOriginalPart df.cols target ++ encodeAppendedPart df.cols target⟩ := by
  have hfold := encodeFold_table_char target df.cols [] [] h1
    (by intro x hx; cases hx) (by intro x hx; cases hx) h2
  have hfst : (encodeCategoricalVariables df target).1 =
      df.cols.foldl (encodeStepTable target) df := by
    unfold encodeCategoricalVariables
    rw [foldl_encodeStepFull_fst]
  rw [hfst]
  have hinit : df.cols.foldl (encodeStepTable target) df =
      df.cols.foldl (encodeStepTable target) ⟨[] ++ df.cols ++ []⟩ := by
    cases df with
    | mk cols => simp
  rw [hinit, hfold]
  simp

/-- Witness for C2 on a table with a target column, a low-cardinality
categorical column (one-hot) and an 11-category categorical column
(label-encoded). -/
theorem C2_categorical_encoding_characterization_witness :
    (encodeCategoricalVariables
        ⟨[⟨"sales", [Value.num 5]⟩, ⟨"city", [Value.str "NYC"]⟩,
          ⟨"store", [Value.str "s0", Value.str "s1", Value.str "s2", Value.str "s3",
            Value.str "s4", Value.str "s5", Value.str "s6", Value.str "s7",
            Value.str "s8", Value.str "s9", Value.str "s10"]⟩]⟩
        (some "sales")).1 =
      ⟨encodedOriginalPart
          [⟨"sales", [Value.num 5]⟩, ⟨"city", [Value.str "NYC"]⟩,
           ⟨"store", [Value.str "s0", Value.str "s1", Value.str "s2", Value.str "s3",
             Value.str "s4", Value.str "s5", Value.str "s6", Value.str "s7",
             Value.str "s8", Value.str "s9", Value.str "s10"]⟩]
          (some "sales") ++
        encodeAppendedPart
          [⟨"sales", [Value.num 5]⟩, ⟨"city", [Value.str "NYC"]⟩,
           ⟨"store", [Value.str "s0", Value.str "s1", Value.str "s2", Value.str "s3",
             Value.str "s4", Value.str "s5", Value.str "s6", Value.str "s7",
             Value.str "s8", Value.str "s9", Value.str "s10"]⟩]
          (some "sales")⟩ :=
  C2_categorical_encoding_characterization
    ⟨[⟨"sales", [Value.num 5]⟩, ⟨"city", [Value.str "NYC"]⟩,
      ⟨"store", [Value.str "s0", Value.str "s1", Value.str "s2", Value.str "s3",
        Value.str "s4", Value.str "s5", Value.str "s6", Value.str "s7",
        Value.str "s8", Value.str "s9", Value.str "s10"]⟩]⟩
    (some "sales") (by decide) (by decide)
